import Mathlib

/-!
Shallow embedding of the RISC OS alphabet transcoding module (rocodecs.py):
the table builder (`RISCOSAlphabet.__init__`), the encode/decode operations
with their three error policies, and the codec registry search function.

Modelling conventions (CPython 3 semantics):
* A decode-table slot is a `PyChar`: the Unicode scalar value plus a flag
  recording whether the slot holds the module's shared `u'\x5cufffd'` string
  literal object.  The source tests slots with `nc is u'\x5cufffd'` (object
  identity): in CPython the literal occurrences inside one module are one
  shared object, while a U+FFFD produced by a base codec's `replace` error
  handler is a distinct object, so identity only matches slots that were
  written from the override dictionaries.
* Python dicts are association lists with update-in-place-or-append
  insertion and first-match lookup (keys stay unique).
* `raise UnicodeDecodeError(msg)` / `raise UnicodeEncodeError(msg)` with a
  single argument do not construct those exceptions: CPython requires five
  constructor arguments and the call itself raises
  `TypeError: function takes exactly 5 arguments (1 given)`.
* `bytes(bytearray(gen))` consumes the generator item by item; an item that
  is a `str` (the `''` / `'?'` fallbacks of the ignore/replace encoders)
  raises `TypeError: str object cannot be interpreted as an integer`.
-/

/-- Unicode replacement character U+FFFD, the "no mapping" sentinel. -/
def replChar : Char := Char.ofNat 0xFFFD

/-- One slot of a decode table: the character value, and whether the slot
holds the module's shared U+FFFD literal object (`lit = true` only for
slots written from the override dictionaries with value U+FFFD). -/
structure PyChar where
  val : Char
  lit : Bool
deriving DecidableEq

/-- Python exceptions that the embedded operations can raise. -/
inductive PyError where
  | typeError (msg : String)
  | valueError (msg : String)
  | indexError (msg : String)
deriving DecidableEq

/-- Result of `raise UnicodeDecodeError(msg)` with one argument: CPython's
`UnicodeDecodeError` constructor takes exactly five arguments, so the raise
statement itself fails with a `TypeError`; the message argument is lost. -/
def UnicodeDecodeError1 (_msg : String) : PyError :=
  PyError.typeError "function takes exactly 5 arguments (1 given)"

/-- Result of `raise UnicodeEncodeError(msg)` with one argument: as with
`UnicodeDecodeError1`, CPython raises a `TypeError` from the constructor. -/
def UnicodeEncodeError1 (_msg : String) : PyError :=
  PyError.typeError "function takes exactly 5 arguments (1 given)"

/-- A Python value produced by the per-character encoders: either an int
(a byte value from the encode table) or a str (the `''` or `'?'` default
of `dict.get` in the ignore/replace encoders). -/
inductive PyVal where
  | int (n : Nat)
  | str (s : List Char)
deriving DecidableEq

/-- Conversion of one generator item by `bytearray`: an int must be in
range(0, 256); a str item raises a `TypeError`. -/
def bytearrayItem : PyVal → Except PyError Nat
  | PyVal.int n =>
      if n < 256 then Except.ok n
      else Except.error (PyError.valueError "byte must be in range(0, 256)")
  | PyVal.str _ =>
      Except.error (PyError.typeError "str object cannot be interpreted as an integer")

/-- Python dict lookup `d.get(k)` over an association list: first match. -/
def dictGet? {κ : Type} [DecidableEq κ] : List (κ × Nat) → κ → Option Nat
  | [], _ => none
  | p :: ps, k => if p.1 = k then some p.2 else dictGet? ps k

/-- Python dict insertion `d[k] = v` over an association list: update the
existing entry in place, or append a new one (keys stay unique). -/
def dictInsert {κ : Type} [DecidableEq κ] : List (κ × Nat) → κ → Nat → List (κ × Nat)
  | [], k, v => [(k, v)]
  | p :: ps, k, v => if p.1 = k then (p.1, v) :: ps else p :: dictInsert ps k v

/-- Accumulator of the dict comprehension
`{char: index for index, char in enumerate(decode_table)}`: insert each
`(char, index)` pair in enumeration order, starting the counter at `n`. -/
def buildAux : List PyChar → Nat → List (Char × Nat) → List (Char × Nat)
  | [], _, d => d
  | e :: es, n, d => buildAux es (n + 1) (dictInsert d e.val n)

/-- Encode-table derivation of `RISCOSAlphabet.__init__` (line 62):
`self.encode_table = {char: (index) for index, char in enumerate(self.decode_table)}`.
No entry is skipped; a repeated character keeps the last (highest) index. -/
def buildEncodeTable (dt : List PyChar) : List (Char × Nat) :=
  buildAux dt 0 []

/-- Value stored into a decode-table slot from an override dictionary:
the dictionaries' U+FFFD values are the module's shared literal object. -/
def mkEntry (c : Char) : PyChar :=
  { val := c, lit := c = replChar }

/-- One pass of the builder loop
`for codepoint, value in change.items(): self.decode_table[codepoint] = value`,
with the dictionary given as its (insertion-ordered, unique-keyed) item list. -/
def applyChange (t : List PyChar) (change : List (Nat × Char)) : List PyChar :=
  change.foldl (fun t p => t.set p.1 (mkEntry p.2)) t

/-- Last index of the decode table holding character `c`, if any: the
specification-side characterisation of the dict comprehension's last-wins
collision handling. -/
def lastIdxOf? : List PyChar → Char → Option Nat
  | [], _ => none
  | e :: es, c =>
    match lastIdxOf? es c with
    | some k => some (k + 1)
    | none => if e.val = c then some 0 else none

/-- The three recognised error policies (the keys of the reader dicts). -/
inductive Policy where
  | strict
  | ignore
  | replace
deriving DecidableEq

/-- A built transcoder: the fields of a `RISCOSAlphabet` instance that the
conversion operations read. -/
structure RISCOSAlphabet where
  alphabet : Nat
  name : String
  decode_table : List PyChar
  encode_table : List (Char × Nat)

/-- Table builder `RISCOSAlphabet.__init__`.  The base table (the result of
`list(self.base_array.decode(base_encoding, 'replace'))`) is supplied
directly, since the base codec is an external collaborator; each change is
an override dictionary's item list.  `changes = changes or [{}]` turns an
absent/empty argument into a single empty layer. -/
def RISCOSAlphabet.init (alphabet : Nat) (name : String)
    (base_table : List PyChar) (changes : List (List (Nat × Char))) : RISCOSAlphabet :=
  let changes := if changes.isEmpty then [[]] else changes
  let decode_table := changes.foldl applyChange base_table
  { alphabet := alphabet
    name := name
    decode_table := decode_table
    encode_table := buildEncodeTable decode_table }

/-- Reader `_encode_strict`: a missing character raises (via the broken
one-argument `UnicodeEncodeError` construction). -/
def RISCOSAlphabet.encode_strict (t : RISCOSAlphabet) (c : Char) : Except PyError PyVal :=
  match dictGet? t.encode_table c with
  | none => Except.error (UnicodeEncodeError1 "Cannot encode character with this encoding")
  | some nc => Except.ok (PyVal.int nc)

/-- Reader `_encode_ignore`: `self.encode_table.get(c, '')`. -/
def RISCOSAlphabet.encode_ignore (t : RISCOSAlphabet) (c : Char) : Except PyError PyVal :=
  match dictGet? t.encode_table c with
  | none => Except.ok (PyVal.str [])
  | some nc => Except.ok (PyVal.int nc)

/-- Reader `_encode_replace`: `self.encode_table.get(c, '?')`. -/
def RISCOSAlphabet.encode_replace (t : RISCOSAlphabet) (c : Char) : Except PyError PyVal :=
  match dictGet? t.encode_table c with
  | none => Except.ok (PyVal.str ['?'])
  | some nc => Except.ok (PyVal.int nc)

/-- Dispatch through `self.encode_readers[errors]`. -/
def RISCOSAlphabet.encodeReader (t : RISCOSAlphabet) : Policy → Char → Except PyError PyVal
  | Policy.strict => t.encode_strict
  | Policy.ignore => t.encode_ignore
  | Policy.replace => t.encode_replace

/-- Evaluation of `bytes(bytearray(encoder(char) for char in text))`: the
bytearray consumes the generator item by item, so the encoder's exception
or the item conversion's `TypeError` aborts at the first offending
character. -/
def encodeChars (t : RISCOSAlphabet) (errors : Policy) : List Char → Except PyError (List Nat)
  | [] => Except.ok []
  | c :: cs =>
    match t.encodeReader errors c with
    | Except.error e => Except.error e
    | Except.ok v =>
      match bytearrayItem v with
      | Except.error e => Except.error e
      | Except.ok b =>
        match encodeChars t errors cs with
        | Except.error e => Except.error e
        | Except.ok bs => Except.ok (b :: bs)

/-- Method `encode` (line 80): returns
`(bytes(bytearray(encoder(char) for char in text)), len(text))`. -/
def RISCOSAlphabet.encode (t : RISCOSAlphabet) (text : List Char) (errors : Policy) :
    Except PyError (List Nat × Nat) :=
  match encodeChars t errors text with
  | Except.error e => Except.error e
  | Except.ok bs => Except.ok (bs, text.length)

/-- Call of `encode` with the `errors` argument omitted: the Python
signature is `def encode(self, text, errors='replace')`. -/
def RISCOSAlphabet.encodeDefault (t : RISCOSAlphabet) (text : List Char) :
    Except PyError (List Nat × Nat) :=
  t.encode text Policy.replace

/-- Reader `_decode_strict`: `nc is u'\x5cufffd'` (the shared literal test)
raises through the broken one-argument `UnicodeDecodeError` construction;
an out-of-range byte would raise `IndexError` from the table indexing. -/
def RISCOSAlphabet.decode_strict (t : RISCOSAlphabet) (c : Nat) : Except PyError (List Char) :=
  match t.decode_table[c]? with
  | none => Except.error (PyError.indexError "list index out of range")
  | some nc =>
    if nc.lit then Except.error (UnicodeDecodeError1 "Cannot decode character from this encoding")
    else Except.ok [nc.val]

/-- Reader `_decode_ignore`: the shared sentinel contributes `''`. -/
def RISCOSAlphabet.decode_ignore (t : RISCOSAlphabet) (c : Nat) : Except PyError (List Char) :=
  match t.decode_table[c]? with
  | none => Except.error (PyError.indexError "list index out of range")
  | some nc =>
    if nc.lit then Except.ok []
    else Except.ok [nc.val]

/-- Reader `_decode_replace`: the table entry is returned unconditionally. -/
def RISCOSAlphabet.decode_replace (t : RISCOSAlphabet) (c : Nat) : Except PyError (List Char) :=
  match t.decode_table[c]? with
  | none => Except.error (PyError.indexError "list index out of range")
  | some nc => Except.ok [nc.val]

/-- Dispatch through `self.decode_readers[errors]`. -/
def RISCOSAlphabet.decodeReader (t : RISCOSAlphabet) : Policy → Nat → Except PyError (List Char)
  | Policy.strict => t.decode_strict
  | Policy.ignore => t.decode_ignore
  | Policy.replace => t.decode_replace

/-- Evaluation of `''.join(decoder(x) for x in binary)` (Python 3 branch):
each byte contributes a zero- or one-character string, concatenated. -/
def decodeBytes (t : RISCOSAlphabet) (errors : Policy) : List Nat → Except PyError (List Char)
  | [] => Except.ok []
  | b :: bs =>
    match t.decodeReader errors b with
    | Except.error e => Except.error e
    | Except.ok s =>
      match decodeBytes t errors bs with
      | Except.error e => Except.error e
      | Except.ok rest => Except.ok (s ++ rest)

/-- Method `decode` (line 104, Python 3 branch): returns
`(''.join(decoder(x) for x in binary), len(binary))`. -/
def RISCOSAlphabet.decode (t : RISCOSAlphabet) (binary : List Nat) (errors : Policy) :
    Except PyError (List Char × Nat) :=
  match decodeBytes t errors binary with
  | Except.error e => Except.error e
  | Except.ok s => Except.ok (s, binary.length)

/-- Call of `decode` with the `errors` argument omitted: the Python
signature is `def decode(self, binary, errors='strict')`. -/
def RISCOSAlphabet.decodeDefault (t : RISCOSAlphabet) (binary : List Nat) :
    Except PyError (List Char × Nat) :=
  t.decode binary Policy.strict

/-- The `c1_changes` override dictionary (C1 control region 0x80-0x9F),
transcribed in source order; 0x84 and 0x87 are the shared U+FFFD literal. -/
def c1_changes : List (Nat × Char) :=
  [ (0x80, Char.ofNat 0x20AC)
  , (0x81, Char.ofNat 0x0174)
  , (0x82, Char.ofNat 0x0175)
  , (0x83, Char.ofNat 0x25F0)
  , (0x84, Char.ofNat 0xFFFD)
  , (0x85, Char.ofNat 0x0176)
  , (0x86, Char.ofNat 0x0177)
  , (0x87, Char.ofNat 0xFFFD)
  , (0x88, Char.ofNat 0x21E6)
  , (0x89, Char.ofNat 0x21E8)
  , (0x8a, Char.ofNat 0x21E9)
  , (0x8b, Char.ofNat 0x21E7)
  , (0x8c, Char.ofNat 0x2026)
  , (0x8d, Char.ofNat 0x2122)
  , (0x8e, Char.ofNat 0x2030)
  , (0x8f, Char.ofNat 0x2022)
  , (0x90, Char.ofNat 0x2018)
  , (0x91, Char.ofNat 0x2019)
  , (0x92, Char.ofNat 0x2039)
  , (0x93, Char.ofNat 0x203A)
  , (0x94, Char.ofNat 0x201C)
  , (0x95, Char.ofNat 0x201D)
  , (0x96, Char.ofNat 0x201E)
  , (0x97, Char.ofNat 0x2013)
  , (0x98, Char.ofNat 0x2014)
  , (0x99, Char.ofNat 0x2212)
  , (0x9a, Char.ofNat 0x0152)
  , (0x9b, Char.ofNat 0x0153)
  , (0x9c, Char.ofNat 0x2020)
  , (0x9d, Char.ofNat 0x2021)
  , (0x9e, Char.ofNat 0xFB01)
  , (0x9f, Char.ofNat 0xFB02)
  ]

/-- Base table `list(base_array.decode('iso-8859-1', 'replace'))`: every
byte value 0-255 maps to the scalar value with the same number, no slot is
unmapped, and no slot is the shared U+FFFD literal. -/
def iso8859_1_table : List PyChar :=
  (List.range 256).map (fun i => { val := Char.ofNat i, lit := false })

/-- The registered transcoder
`RISCOSAlphabet(101, 'riscos-latin1', 'iso-8859-1', changes=[c1_changes])`. -/
def riscosLatin1 : RISCOSAlphabet :=
  RISCOSAlphabet.init 101 "riscos-latin1" iso8859_1_table [c1_changes]

/-- A registry entry: alphabet number, codec name, and a tag standing for
the identity of the `codec` object held by the instance (entries hold
distinct objects, so distinct tags suffice; we use the alphabet number). -/
structure AlphabetEntry where
  alphabet : Nat
  name : String
  codec : Nat
deriving DecidableEq

/-- The `riscos_alphabets` list (names and numbers of all sixteen
registered encodings; entry 111 is the `RISCOSUTF8` pass-through). -/
def riscos_alphabets : List AlphabetEntry :=
  [ { alphabet := 101, name := "riscos-latin1", codec := 101 }
  , { alphabet := 102, name := "riscos-latin2", codec := 102 }
  , { alphabet := 103, name := "riscos-latin3", codec := 103 }
  , { alphabet := 104, name := "riscos-latin4", codec := 104 }
  , { alphabet := 105, name := "riscos-cyrillic", codec := 105 }
  , { alphabet := 106, name := "riscos-arabic", codec := 106 }
  , { alphabet := 107, name := "riscos-greek", codec := 107 }
  , { alphabet := 108, name := "riscos-hebrew", codec := 108 }
  , { alphabet := 109, name := "riscos-latin5", codec := 109 }
  , { alphabet := 110, name := "riscos-welsh", codec := 110 }
  , { alphabet := 111, name := "riscos-utf8", codec := 111 }
  , { alphabet := 112, name := "riscos-latin9", codec := 112 }
  , { alphabet := 113, name := "riscos-latin6", codec := 113 }
  , { alphabet := 114, name := "riscos-latin7", codec := 114 }
  , { alphabet := 115, name := "riscos-latin8", codec := 115 }
  , { alphabet := 116, name := "riscos-latin10", codec := 116 }
  ]

/-- The dict `{encoding.name: encoding.codec for encoding in riscos_alphabets}`. -/
def riscos_alphabets_map : List (List Char × Nat) :=
  riscos_alphabets.foldl (fun d e => dictInsert d e.name.toList e.codec) []

/-- Test `encoding_name.startswith('riscos-alphabet-')`. -/
def strStarts (s p : List Char) : Bool :=
  s.take p.length = p

/-- Remainder of a character list after its first hyphen (empty if none). -/
def afterDash (s : List Char) : List Char :=
  (s.dropWhile (fun c => c ≠ '-')).drop 1

/-- Model of `int(number)` for the strings that reach it here: a non-empty
all-digit string parses to its decimal value, anything else raises
`ValueError` (modelled as `none`). -/
def pyInt? (s : List Char) : Option Nat :=
  if s ≠ [] ∧ s.all (fun c => c.isDigit) then
    some (s.foldl (fun n c => n * 10 + (c.toNat - 48)) 0)
  else
    none

/-- The `for encoding in riscos_alphabets: if encoding.alphabet == n:
return encoding.codec` loop; falling off the loop returns nothing. -/
def findCodec? : List AlphabetEntry → Nat → Option Nat
  | [], _ => none
  | e :: es, n => if e.alphabet = n then some e.codec else findCodec? es n

/-- The registered `custom_search_function`.  Under the
`riscos-alphabet-` guard, `_, _, number = encoding_name.split('-', 2)`
always yields three parts whose third is everything after the second
hyphen, here computed by dropping up to the second hyphen; a `ValueError`
from `int(number)` returns `None`; a parsed number not matching any
alphabet falls through to the name map, as does any other name. -/
def custom_search_function (encoding_name : List Char) : Option Nat :=
  if strStarts encoding_name ("riscos-alphabet-".toList) then
    let number := afterDash (afterDash encoding_name)
    match pyInt? number with
    | none => none
    | some alphabet_number =>
      match findCodec? riscos_alphabets alphabet_number with
      | some codec => some codec
      | none => dictGet? riscos_alphabets_map encoding_name
  else
    dictGet? riscos_alphabets_map encoding_name

deriving instance DecidableEq for Except

set_option maxRecDepth 10000

/-- Inserting a key into a dict changes exactly that key's lookup. -/
theorem dictGet_dictInsert {κ : Type} [DecidableEq κ] (d : List (κ × Nat)) (k : κ)
    (v : Nat) (k' : κ) :
    dictGet? (dictInsert d k v) k' = if k' = k then some v else dictGet? d k' := by
  induction d with
  | nil =>
    by_cases h : k' = k
    · subst h; simp [dictInsert, dictGet?]
    · have h2 : ¬ k = k' := fun hh => h hh.symm
      simp [dictInsert, dictGet?, h, h2]
  | cons p ps ih =>
    by_cases hp : p.1 = k
    · by_cases h : k' = k
      · subst h; simp [dictInsert, dictGet?, hp]
      · have hp' : ¬ p.1 = k' := fun hh => h (hh.symm.trans hp)
        have h2 : ¬ k = k' := fun hh => h hh.symm
        simp [dictInsert, dictGet?, hp, h, hp', h2]
    · by_cases h : k' = k
      · subst h
        simp [dictInsert, dictGet?, hp, ih]
      · simp [dictInsert, dictGet?, hp, h, ih]

/-- The dict built by the enumeration fold looks up to the last matching
index, shifted by the starting counter. -/
theorem buildAux_get (l : List PyChar) (n : Nat) (d : List (Char × Nat)) (c : Char) :
    dictGet? (buildAux l n d) c =
      match lastIdxOf? l c with
      | some k => some (n + k)
      | none => dictGet? d c := by
  induction l generalizing n d with
  | nil => simp [buildAux, lastIdxOf?]
  | cons e es ih =>
    rw [buildAux, ih, lastIdxOf?]
    cases hes : lastIdxOf? es c with
    | some k =>
      have : n + 1 + k = n + (k + 1) := by omega
      simp [this]
    | none =>
      by_cases hv : e.val = c
      · subst hv
        simp [dictGet_dictInsert]
      · have hv' : ¬ c = e.val := fun hh => hv hh.symm
        simp [hv, hv', dictGet_dictInsert]

/-- Last-wins characterisation of the encode-table derivation: looking up a
character in the derived encode table yields the last decode-table index
holding that character. -/
theorem buildEncodeTable_get (dt : List PyChar) (c : Char) :
    dictGet? (buildEncodeTable dt) c = lastIdxOf? dt c := by
  rw [buildEncodeTable, buildAux_get]
  cases h : lastIdxOf? dt c <;> simp [dictGet?]

/-- A last index is inside the table. -/
theorem lastIdx_lt (dt : List PyChar) (c : Char) (m : Nat)
    (h : lastIdxOf? dt c = some m) : m < dt.length := by
  induction dt generalizing m with
  | nil => simp [lastIdxOf?] at h
  | cons e es ih =>
    rw [lastIdxOf?] at h
    cases hes : lastIdxOf? es c with
    | some k =>
      rw [hes] at h
      injection h with h
      subst h
      simpa using Nat.succ_lt_succ (ih k hes)
    | none =>
      rw [hes] at h
      by_cases hv : e.val = c
      · simp [hv] at h
        subst h
        simp
      · simp [hv] at h

/-- The slot at a last index holds the character looked for. -/
theorem lastIdx_val (dt : List PyChar) (c : Char) (m : Nat)
    (h : lastIdxOf? dt c = some m) :
    ∃ e, dt[m]? = some e ∧ e.val = c := by
  induction dt generalizing m with
  | nil => simp [lastIdxOf?] at h
  | cons e es ih =>
    rw [lastIdxOf?] at h
    cases hes : lastIdxOf? es c with
    | some k =>
      rw [hes] at h
      injection h with h
      subst h
      obtain ⟨e', he', hv⟩ := ih k hes
      exact ⟨e', by simpa using he', hv⟩
    | none =>
      rw [hes] at h
      by_cases hv : e.val = c
      · simp [hv] at h
        subst h
        exact ⟨e, by simp, hv⟩
      · simp [hv] at h

/-- When no index holds the character, no slot has that value. -/
theorem lastIdx_none (dt : List PyChar) (c : Char)
    (h : lastIdxOf? dt c = none) :
    ∀ (j : Nat) (e2 : PyChar), dt[j]? = some e2 → e2.val ≠ c := by
  induction dt with
  | nil => intro j e2 hj; simp at hj
  | cons e es ih =>
    rw [lastIdxOf?] at h
    cases hes : lastIdxOf? es c with
    | some k => rw [hes] at h; simp at h
    | none =>
      rw [hes] at h
      by_cases hv : e.val = c
      · simp [hv] at h
      · intro j e2 hj hv2
        cases j with
        | zero =>
          simp at hj
          subst hj
          exact hv hv2
        | succ j' =>
          exact ih hes j' e2 (by simpa using hj) hv2

/-- A last index is the greatest index holding the character. -/
theorem lastIdx_ge (dt : List PyChar) (c : Char) (m : Nat)
    (h : lastIdxOf? dt c = some m) :
    ∀ (j : Nat) (e2 : PyChar), dt[j]? = some e2 → e2.val = c → j ≤ m := by
  induction dt generalizing m with
  | nil => intro j e2 hj; simp at hj
  | cons e es ih =>
    rw [lastIdxOf?] at h
    intro j e2 hj hv2
    cases hes : lastIdxOf? es c with
    | some k =>
      rw [hes] at h
      injection h with h
      subst h
      cases j with
      | zero => exact Nat.zero_le _
      | succ j' =>
        have := ih k hes j' e2 (by simpa using hj) hv2
        omega
    | none =>
      rw [hes] at h
      by_cases hv : e.val = c
      · simp [hv] at h
        subst h
        cases j with
        | zero => exact Nat.le_refl 0
        | succ j' =>
          exact absurd hv2 (lastIdx_none es c hes j' e2 (by simpa using hj))
      · simp [hv] at h

/-- Any slot holding the character guarantees a last index exists. -/
theorem lastIdx_exists (dt : List PyChar) (c : Char) (j : Nat) (e : PyChar)
    (hj : dt[j]? = some e) (hv : e.val = c) :
    ∃ m, lastIdxOf? dt c = some m := by
  induction dt generalizing j with
  | nil => simp at hj
  | cons e0 es ih =>
    rw [lastIdxOf?]
    cases hes : lastIdxOf? es c with
    | some k => exact ⟨k + 1, rfl⟩
    | none =>
      cases j with
      | zero =>
        simp at hj
        have hv0 : e0.val = c := by rw [hj]; exact hv
        exact ⟨0, by simp [hv0]⟩
      | succ j' =>
        obtain ⟨m, hm⟩ := ih j' (by simpa using hj)
        rw [hes] at hm
        simp at hm

/-- Unfolding of the builder's decode-table construction. -/
theorem init_decode_table (a : Nat) (nm : String) (base : List PyChar)
    (chs : List (List (Nat × Char))) :
    (RISCOSAlphabet.init a nm base chs).decode_table =
      (if chs.isEmpty then [[]] else chs).foldl applyChange base := rfl

/-- The builder derives the encode table from the finished decode table. -/
theorem init_encode_table (a : Nat) (nm : String) (base : List PyChar)
    (chs : List (List (Nat × Char))) :
    (RISCOSAlphabet.init a nm base chs).encode_table =
      buildEncodeTable (RISCOSAlphabet.init a nm base chs).decode_table := rfl

/-- Encode-table lookups on a built transcoder are last-index lookups on
its decode table. -/
theorem init_encGet (a : Nat) (nm : String) (base : List PyChar)
    (chs : List (List (Nat × Char))) (c : Char) :
    dictGet? (RISCOSAlphabet.init a nm base chs).encode_table c =
      lastIdxOf? (RISCOSAlphabet.init a nm base chs).decode_table c := by
  rw [init_encode_table, buildEncodeTable_get]

/-- Specialisation of `init_encGet` to the registered riscos-latin1. -/
theorem latin1_encGet (c : Char) :
    dictGet? riscosLatin1.encode_table c = lastIdxOf? riscosLatin1.decode_table c :=
  init_encGet 101 "riscos-latin1" iso8859_1_table [c1_changes] c

/-- Applying one override layer starts the fold with the first slot write. -/
theorem applyChange_cons (t : List PyChar) (p : Nat × Char) (ps : List (Nat × Char)) :
    applyChange t (p :: ps) = applyChange (t.set p.1 (mkEntry p.2)) ps := rfl

/-- Override layers never change the table length. -/
theorem applyChange_length (t : List PyChar) (items : List (Nat × Char)) :
    (applyChange t items).length = t.length := by
  induction items generalizing t with
  | nil => rfl
  | cons p ps ih =>
    rw [applyChange_cons, ih]
    exact List.length_set t p.1 (mkEntry p.2)

/-- A whole sequence of override layers never changes the table length. -/
theorem foldl_applyChange_length (chs : List (List (Nat × Char))) (t : List PyChar) :
    (chs.foldl applyChange t).length = t.length := by
  induction chs generalizing t with
  | nil => rfl
  | cons ch rest ih =>
    rw [List.foldl_cons, ih, applyChange_length]

/-- A built decode table has the base table's length. -/
theorem init_decode_table_length (a : Nat) (nm : String) (base : List PyChar)
    (chs : List (List (Nat × Char))) :
    (RISCOSAlphabet.init a nm base chs).decode_table.length = base.length := by
  rw [init_decode_table, foldl_applyChange_length]

/-- A layer leaves slots alone whose byte value it does not define. -/
theorem applyChange_get_of_not_mem (t : List PyChar) (items : List (Nat × Char)) (b : Nat)
    (h : ∀ p ∈ items, p.1 ≠ b) :
    (applyChange t items)[b]? = t[b]? := by
  induction items generalizing t with
  | nil => rfl
  | cons p ps ih =>
    rw [applyChange_cons, ih _ (fun q hq => h q (List.mem_cons_of_mem p hq))]
    exact List.getElem?_set_ne (h p (List.mem_cons_self p ps))

/-- A layer writes its value into every in-range slot it defines (the
layer is a dict, so its keys are unique). -/
theorem applyChange_get_of_mem (t : List PyChar) (items : List (Nat × Char)) (b : Nat) (v : Char)
    (hnodup : (items.map Prod.fst).Nodup) (hmem : (b, v) ∈ items) (hb : b < t.length) :
    (applyChange t items)[b]? = some (mkEntry v) := by
  induction items generalizing t with
  | nil => cases hmem
  | cons p ps ih =>
    rw [applyChange_cons]
    rcases List.mem_cons.mp hmem with heq | hmem'
    · have hp1 : p.1 = b := by rw [← heq]
      have hp2 : p.2 = v := by rw [← heq]
      have hnotin : ∀ q ∈ ps, q.1 ≠ b := by
        intro q hq
        have := (List.nodup_cons.mp hnodup).1
        intro hqb
        exact this (hp1 ▸ hqb ▸ List.mem_map_of_mem Prod.fst hq)
      rw [applyChange_get_of_not_mem _ _ _ hnotin, hp1, hp2]
      exact List.getElem?_set_self (by simpa using hb)
    · exact ih _ (List.nodup_cons.mp hnodup).2 hmem' (by simpa using hb)

/-- Every slot of a patched table is either the original slot or the image
of one of the layer's dictionary values. -/
theorem applyChange_get_cases (t : List PyChar) (items : List (Nat × Char)) (b : Nat) (e : PyChar)
    (h : (applyChange t items)[b]? = some e) :
    t[b]? = some e ∨ ∃ p ∈ items, e = mkEntry p.2 := by
  induction items generalizing t with
  | nil => exact Or.inl h
  | cons p ps ih =>
    rw [applyChange_cons] at h
    rcases ih _ h with h' | ⟨q, hq, rfl⟩
    · by_cases hb : p.1 = b
      · subst hb
        rcases Nat.lt_or_ge p.1 t.length with hlt | hge
        · rw [List.getElem?_set_self hlt] at h'
          injection h' with h'
          exact Or.inr ⟨p, List.mem_cons_self p ps, h'.symm⟩
        · rw [List.set_eq_of_length_le hge] at h'
          exact Or.inl h'
      · rw [List.getElem?_set_ne hb] at h'
        exact Or.inl h'
    · exact Or.inr ⟨q, List.mem_cons_of_mem p hq, rfl⟩

/-- Every slot of a built decode table is either a base-table slot or the
image of some layer's dictionary value. -/
theorem foldl_change_get_cases (chs : List (List (Nat × Char))) (t : List PyChar)
    (b : Nat) (e : PyChar) (h : (chs.foldl applyChange t)[b]? = some e) :
    t[b]? = some e ∨ ∃ ch ∈ chs, ∃ p ∈ ch, e = mkEntry p.2 := by
  induction chs generalizing t with
  | nil => exact Or.inl h
  | cons ch rest ih =>
    rw [List.foldl_cons] at h
    rcases ih _ h with h' | ⟨ch', hch', hp⟩
    · rcases applyChange_get_cases _ _ _ _ h' with h'' | ⟨p, hp, rfl⟩
      · exact Or.inl h''
      · exact Or.inr ⟨ch, List.mem_cons_self ch rest, p, hp, rfl⟩
    · exact Or.inr ⟨ch', List.mem_cons_of_mem ch hch', hp⟩

/-- Provided the base table holds no shared-literal slot (true of every
base codec's output), a built decode-table slot flagged as the shared
sentinel literal really has the value U+FFFD. -/
theorem init_entry_lit (a : Nat) (nm : String) (base : List PyChar)
    (chs : List (List (Nat × Char))) (b : Nat) (e : PyChar)
    (hbase : ∀ x ∈ base, x.lit = false)
    (h : (RISCOSAlphabet.init a nm base chs).decode_table[b]? = some e)
    (hlit : e.lit = true) : e.val = replChar := by
  rw [init_decode_table] at h
  rcases foldl_change_get_cases _ _ _ _ h with h' | ⟨ch, _, p, _, rfl⟩
  · have hmem : e ∈ base := by
      have := List.getElem?_eq_some_iff.mp h'
      obtain ⟨hb, hget⟩ := this
      exact hget ▸ List.getElem_mem hb
    rw [hbase e hmem] at hlit
    cases hlit
  · have : decide (p.2 = replChar) = true := hlit
    simpa [mkEntry] using of_decide_eq_true this

/-- Encoding a single unmappable character under the ignore policy crashes
in the bytearray conversion: `_encode_ignore` returns the string `''`,
which is not an int. -/
theorem encode_ignore_fail (t : RISCOSAlphabet) (c : Char)
    (h : dictGet? t.encode_table c = none) :
    t.encode [c] Policy.ignore =
      Except.error (PyError.typeError "str object cannot be interpreted as an integer") := by
  simp [RISCOSAlphabet.encode, encodeChars, RISCOSAlphabet.encodeReader,
    RISCOSAlphabet.encode_ignore, h, bytearrayItem]

/-- Encoding a single unmappable character under the replace policy
crashes in the bytearray conversion: `_encode_replace` returns the string
`'?'`, which is not an int. -/
theorem encode_replace_fail (t : RISCOSAlphabet) (c : Char)
    (h : dictGet? t.encode_table c = none) :
    t.encode [c] Policy.replace =
      Except.error (PyError.typeError "str object cannot be interpreted as an integer") := by
  simp [RISCOSAlphabet.encode, encodeChars, RISCOSAlphabet.encodeReader,
    RISCOSAlphabet.encode_replace, h, bytearrayItem]

/-- C1 counterexample: the claim says the replacement sentinel U+FFFD never
appears as a key of the derived encode table, but for the registered
riscos-latin1 transcoder the encode table maps U+FFFD to byte 0x87 (both
0x84 and 0x87 decode to the sentinel and the last one wins). -/
theorem c1_sentinel_key_counterexample :
    dictGet? riscosLatin1.encode_table replChar = some 0x87 := by
  rw [latin1_encGet]
  decide

/-- C1 amended: the encode-table derivation does not skip sentinel slots;
whenever some byte's decode-table slot holds U+FFFD, the encode table has
U+FFFD as a key, mapped to the highest such byte value. -/
theorem c1_sentinel_key_amended (a : Nat) (nm : String) (base : List PyChar)
    (chs : List (List (Nat × Char))) (b : Nat) (e : PyChar)
    (hb : (RISCOSAlphabet.init a nm base chs).decode_table[b]? = some e)
    (hv : e.val = replChar) :
    ∃ m, dictGet? (RISCOSAlphabet.init a nm base chs).encode_table replChar = some m ∧
      b ≤ m ∧
      ∃ e2, (RISCOSAlphabet.init a nm base chs).decode_table[m]? = some e2 ∧
        e2.val = replChar := by
  obtain ⟨m, hm⟩ := lastIdx_exists _ replChar b e hb hv
  refine ⟨m, ?_, ?_, ?_⟩
  · rw [init_encGet]
    exact hm
  · exact lastIdx_ge _ replChar m hm b e hb hv
  · exact lastIdx_val _ replChar m hm

/-- Witness for C1 amended at the registered riscos-latin1 transcoder and
byte 0x84, whose slot holds the sentinel. -/
theorem c1_sentinel_key_amended_witness :
    (RISCOSAlphabet.init 101 "riscos-latin1" iso8859_1_table [c1_changes]).decode_table[0x84]? =
        some { val := replChar, lit := true } ∧
      ∃ m, dictGet? (RISCOSAlphabet.init 101 "riscos-latin1" iso8859_1_table
          [c1_changes]).encode_table replChar = some m ∧
        0x84 ≤ m ∧
        ∃ e2, (RISCOSAlphabet.init 101 "riscos-latin1" iso8859_1_table
            [c1_changes]).decode_table[m]? = some e2 ∧ e2.val = replChar :=
  ⟨by decide,
   c1_sentinel_key_amended 101 "riscos-latin1" iso8859_1_table [c1_changes] 0x84
     { val := replChar, lit := true } (by decide) (by decide)⟩

/-- C2 evaluation: strict-decoding the one-byte sequence 0x87 with the
registered riscos-latin1 transcoder does fail, but with a TypeError raised
by the one-argument `UnicodeDecodeError` construction; no error object
carrying the byte value and input position is ever produced. -/
theorem c2_strict_decode_error_eval :
    riscosLatin1.decode [0x87] Policy.strict =
      Except.error (PyError.typeError "function takes exactly 5 arguments (1 given)") := by
  decide

/-- C3 evaluation: the ignore policy does fail on unmappable data in the
encode direction; encoding U+0101 (absent from the riscos-latin1 encode
table) under ignore raises a TypeError because the reader returns the
string `''` to the bytearray conversion. -/
theorem c3_ignore_policy_encode_failure_eval :
    riscosLatin1.encode [Char.ofNat 0x101] Policy.ignore =
      Except.error (PyError.typeError "str object cannot be interpreted as an integer") := by
  apply encode_ignore_fail
  rw [latin1_encGet]
  decide

/-- C7 evaluation: encoding the unmappable character U+0100 under the
replace policy does not append byte 0x3F; it raises a TypeError because
`_encode_replace` returns the string `'?'` to the bytearray conversion. -/
theorem c7_replace_policy_encode_failure_eval :
    riscosLatin1.encode [Char.ofNat 0x100] Policy.replace =
      Except.error (PyError.typeError "str object cannot be interpreted as an integer") := by
  apply encode_replace_fail
  rw [latin1_encGet]
  decide

/-- C9 evaluation: calling encode without a policy routes to the replace
reader and calling decode without a policy routes to the strict reader,
but by default an unmappable character makes encoding raise a TypeError
(instead of being silently substituted), and an unmappable byte makes
decoding fail (with the TypeError from the broken error construction). -/
theorem c9_default_policies_eval :
    riscosLatin1.encodeDefault [Char.ofNat 0x102] =
        Except.error (PyError.typeError "str object cannot be interpreted as an integer") ∧
      riscosLatin1.decodeDefault [0x84] =
        Except.error (PyError.typeError "function takes exactly 5 arguments (1 given)") := by
  constructor
  · show riscosLatin1.encode [Char.ofNat 0x102] Policy.replace = _
    apply encode_replace_fail
    rw [latin1_encGet]
    decide
  · decide

/-- C4: for every transcoder built by the builder from a 256-entry base
table with no shared-literal slot, and every byte value b whose
decode-table slot is not the replacement sentinel, if b is the canonical
(collision-winning, i.e. last) byte value for its character then
strict-encoding the strict-decoding of the one-byte sequence b yields b
again. -/
theorem c4_roundtrip (a : Nat) (nm : String) (base : List PyChar)
    (chs : List (List (Nat × Char))) (b : Nat) (e : PyChar)
    (hlen : base.length = 256)
    (hbase : ∀ x ∈ base, x.lit = false)
    (hb : (RISCOSAlphabet.init a nm base chs).decode_table[b]? = some e)
    (hv : e.val ≠ replChar)
    (hcanon : lastIdxOf? (RISCOSAlphabet.init a nm base chs).decode_table e.val = some b) :
    (RISCOSAlphabet.init a nm base chs).decode [b] Policy.strict = Except.ok ([e.val], 1) ∧
      (RISCOSAlphabet.init a nm base chs).encode [e.val] Policy.strict = Except.ok ([b], 1) := by
  have hlit : e.lit = false := by
    cases hl : e.lit
    · rfl
    · exact absurd (init_entry_lit a nm base chs b e hbase hb hl) hv
  constructor
  · simp [RISCOSAlphabet.decode, decodeBytes, RISCOSAlphabet.decodeReader,
      RISCOSAlphabet.decode_strict, hb, hlit]
  · have hg : dictGet? (RISCOSAlphabet.init a nm base chs).encode_table e.val = some b := by
      rw [init_encGet]
      exact hcanon
    have hb256 : b < 256 := by
      have h1 := lastIdx_lt _ _ _ hcanon
      rw [init_decode_table_length, hlen] at h1
      exact h1
    simp [RISCOSAlphabet.encode, encodeChars, RISCOSAlphabet.encodeReader,
      RISCOSAlphabet.encode_strict, hg, bytearrayItem, hb256]

/-- Witness for C4 at the registered riscos-latin1 transcoder and byte
0x41, which decodes to the collision-free character A. -/
theorem c4_roundtrip_witness :
    lastIdxOf? (RISCOSAlphabet.init 101 "riscos-latin1" iso8859_1_table
        [c1_changes]).decode_table 'A' = some 0x41 ∧
      ((RISCOSAlphabet.init 101 "riscos-latin1" iso8859_1_table [c1_changes]).decode [0x41]
          Policy.strict = Except.ok (['A'], 1) ∧
        (RISCOSAlphabet.init 101 "riscos-latin1" iso8859_1_table [c1_changes]).encode ['A']
          Policy.strict = Except.ok ([0x41], 1)) :=
  ⟨by decide,
   c4_roundtrip 101 "riscos-latin1" iso8859_1_table [c1_changes] 0x41 { val := 'A', lit := false }
     (by decide) (by decide) (by decide) (by decide) (by decide)⟩

/-- C5: on every built transcoder, when two distinct byte values decode to
the same character, the derived encode table maps that character to
exactly one byte value, the greatest byte value decoding to it. -/
theorem c5_collision_last_wins (a : Nat) (nm : String) (base : List PyChar)
    (chs : List (List (Nat × Char))) (b1 b2 : Nat) (e1 e2 : PyChar)
    (h1 : (RISCOSAlphabet.init a nm base chs).decode_table[b1]? = some e1)
    (_h2 : (RISCOSAlphabet.init a nm base chs).decode_table[b2]? = some e2)
    (_hne : b1 ≠ b2) (_hvv : e1.val = e2.val) :
    ∃ m, dictGet? (RISCOSAlphabet.init a nm base chs).encode_table e1.val = some m ∧
      (∃ e, (RISCOSAlphabet.init a nm base chs).decode_table[m]? = some e ∧ e.val = e1.val) ∧
      ∀ (j : Nat) (e : PyChar),
        (RISCOSAlphabet.init a nm base chs).decode_table[j]? = some e →
          e.val = e1.val → j ≤ m := by
  obtain ⟨m, hm⟩ := lastIdx_exists _ e1.val b1 e1 h1 rfl
  refine ⟨m, ?_, lastIdx_val _ _ _ hm, lastIdx_ge _ _ _ hm⟩
  rw [init_encGet]
  exact hm

/-- Witness for C5 at riscos-latin1 with bytes 0x84 and 0x87, which both
decode to the sentinel character; the encode table picks 0x87. -/
theorem c5_collision_last_wins_witness :
    (RISCOSAlphabet.init 101 "riscos-latin1" iso8859_1_table [c1_changes]).decode_table[0x84]? =
        some { val := replChar, lit := true } ∧
      ∃ m, dictGet? (RISCOSAlphabet.init 101 "riscos-latin1" iso8859_1_table
          [c1_changes]).encode_table replChar = some m ∧
        (∃ e, (RISCOSAlphabet.init 101 "riscos-latin1" iso8859_1_table
            [c1_changes]).decode_table[m]? = some e ∧ e.val = replChar) ∧
        ∀ (j : Nat) (e : PyChar),
          (RISCOSAlphabet.init 101 "riscos-latin1" iso8859_1_table
              [c1_changes]).decode_table[j]? = some e → e.val = replChar → j ≤ m :=
  ⟨by decide,
   c5_collision_last_wins 101 "riscos-latin1" iso8859_1_table [c1_changes] 0x84 0x87
     { val := replChar, lit := true } { val := replChar, lit := true }
     (by decide) (by decide) (by decide) rfl⟩

/-- C6: building a table with two layers that both define the same byte
value gives that slot the second layer's value: layers are applied in
order over the base and later layers overwrite earlier ones. -/
theorem c6_layer_precedence (a : Nat) (nm : String) (base : List PyChar)
    (A B : List (Nat × Char)) (b : Nat) (v : Char)
    (hnodup : (B.map Prod.fst).Nodup) (hmem : (b, v) ∈ B) (hb : b < base.length) :
    (RISCOSAlphabet.init a nm base [A, B]).decode_table[b]? = some (mkEntry v) := by
  rw [init_decode_table]
  simp only [List.isEmpty_cons, Bool.false_eq_true, if_false, List.foldl_cons, List.foldl_nil]
  exact applyChange_get_of_mem _ _ _ _ hnodup hmem (by rw [applyChange_length]; exact hb)

/-- Witness for C6: two single-entry layers both defining byte 0x80 over
the iso-8859-1 base; the second layer's value Y lands in the slot. -/
theorem c6_layer_precedence_witness :
    ((0x80, Char.ofNat 0x59) ∈ [(0x80, Char.ofNat 0x59)] ∧ 0x80 < iso8859_1_table.length) ∧
      (RISCOSAlphabet.init 0 "test" iso8859_1_table
          [[(0x80, Char.ofNat 0x58)], [(0x80, Char.ofNat 0x59)]]).decode_table[0x80]? =
        some (mkEntry (Char.ofNat 0x59)) :=
  ⟨⟨by decide, by decide⟩,
   c6_layer_precedence 0 "test" iso8859_1_table [(0x80, Char.ofNat 0x58)]
     [(0x80, Char.ofNat 0x59)] 0x80 (Char.ofNat 0x59) (by decide) (by decide) (by decide)⟩

/-- C8: looking up the riscos-latin1 transcoder through the registered
search function by its name and by the riscos-alphabet-101 numeric naming
convention returns the same codec object. -/
theorem c8_registry_dual_lookup :
    custom_search_function ("riscos-alphabet-101".toList) =
        custom_search_function ("riscos-latin1".toList) ∧
      custom_search_function ("riscos-latin1".toList) = some 101 := by
  constructor
  · decide
  · decide

/-- C10: whenever encode or decode succeeds, under any policy, the second
component of the returned pair is the length of the entire input. -/
theorem c10_returns_input_length (t : RISCOSAlphabet) (p : Policy)
    (text : List Char) (binary : List Nat) (bs : List Nat) (n : Nat)
    (cs : List Char) (m : Nat)
    (henc : t.encode text p = Except.ok (bs, n))
    (hdec : t.decode binary p = Except.ok (cs, m)) :
    n = text.length ∧ m = binary.length := by
  constructor
  · rw [RISCOSAlphabet.encode] at henc
    cases h : encodeChars t p text with
    | error e => rw [h] at henc; simp at henc
    | ok bs2 =>
      rw [h] at henc
      injection henc with h2
      injection h2 with h3 h4
      exact h4.symm
  · rw [RISCOSAlphabet.decode] at hdec
    cases h : decodeBytes t p binary with
    | error e => rw [h] at hdec; simp at hdec
    | ok cs2 =>
      rw [h] at hdec
      injection hdec with h2
      injection h2 with h3 h4
      exact h4.symm

/-- Witness for C10 on a one-slot transcoder where both directions
succeed with the whole input consumed. -/
theorem c10_returns_input_length_witness :
    (RISCOSAlphabet.mk 0 "tiny" [{ val := 'a', lit := false }] [('a', 0)]).encode ['a']
        Policy.strict = Except.ok ([0], 1) ∧
      (RISCOSAlphabet.mk 0 "tiny" [{ val := 'a', lit := false }] [('a', 0)]).decode [0]
        Policy.strict = Except.ok (['a'], 1) ∧
      (1 = (['a'] : List Char).length ∧ 1 = ([0] : List Nat).length) :=
  ⟨by decide, by decide,
   c10_returns_input_length (RISCOSAlphabet.mk 0 "tiny" [{ val := 'a', lit := false }]
       [('a', 0)]) Policy.strict ['a'] [0] [0] 1 ['a'] 1 (by decide) (by decide)⟩
